import Mathlib

/-!
Verification development for the eth-fund-flow-analysis repository.

The development shallowly embeds the aggregation pipeline of the repository:

* `internal/etherscan/models.go` — record shapes (`Transaction`, `TokenTransfer`)
  and `FormatTime`;
* `internal/etherscan/client.go` — the retry loop of `fetchTransactions`, the
  single-attempt transport of `GetTokenTransfers`, and the response-envelope
  handling of both;
* `internal/analyzer/beneficiary.go` — `AnalyzeBeneficiary` / `processBeneficiary`;
* `internal/analyzer/payer.go` — `AnalyzePayer` / `processPayer`.

Modelling conventions:

* Amounts: the Go code converts Wei strings to `float64` through `big.Float`
  (scan at precision 64, quotient at precision 64, `Float64()` at precision
  53) and accumulates totals with float64 `+=`.  The embedding represents
  every float as the exact rational it denotes: `bigFloatScan` embeds the
  `SetString` scan (including the retention of a successfully scanned numeric
  prefix when the parse fails on trailing input), and `roundFloat p` embeds
  rounding to a `p`-bit significand with round-to-nearest, ties-to-even.
  Exponent-range limits (overflow, subnormals) are not modelled; every value
  the program handles is far inside the normal range.
* `strings.EqualFold` is embedded as ASCII case folding (addresses are ASCII
  hex strings); Go additionally folds non-ASCII letters, which never occur in
  the data handled here.
* `time.Unix(t, 0).Format("2006-01-02 15:04:05")` is embedded with the fixed
  reference time zone UTC, via the standard civil-from-days calendar algorithm.
* The Go aggregation map `map[string]*Beneficiary` is embedded as an
  association list that remembers first-insertion order; since Go map
  iteration order is unspecified, the observable result of
  `AnalyzeBeneficiary` / `AnalyzePayer` is embedded as a relation admitting
  every permutation of that association list.
* Network effects are embedded by passing fetch outcomes (`Except`) or a
  transport oracle (`Nat → Option α`, attempt index to response) explicitly.
* The three fetch goroutines of each analyzer share one `err` variable and
  each checks that shared variable after writing it.  The resulting data race
  is embedded by an explicit event-schedule semantics (`runSchedule` over
  write/check events); `fetchJoin` below describes only the race-free
  schedules, which is all the all-fetches-succeed theorems rely on.
-/

namespace EthFundFlow

/-- Lowercases one ASCII letter, embedding the per-rune folding that
`strings.EqualFold` performs on ASCII input. -/
def lowerChar (c : Char) : Char :=
  if 'A' ≤ c ∧ c ≤ 'Z' then Char.ofNat (c.toNat + 32) else c

/-- Lowercases every character of a string (ASCII). -/
def lowerString (s : String) : String := ⟨s.data.map lowerChar⟩

/-- Embeds `strings.EqualFold` (beneficiary.go line 110 etc.) on ASCII strings:
two strings are equal under case folding. -/
def equalFold (s t : String) : Bool := lowerString s == lowerString t

/-- Accumulates decimal digits; any non-digit character aborts the parse. -/
def parseDigitsAux : List Char → Nat → Option Nat
  | [], acc => some acc
  | c :: cs, acc =>
    if '0' ≤ c ∧ c ≤ '9' then parseDigitsAux cs (acc * 10 + (c.toNat - 48)) else none

/-- Parses a non-empty all-digit character list as a natural number. -/
def parseDigits : List Char → Option Nat
  | [] => none
  | c :: cs => parseDigitsAux (c :: cs) 0

/- Reducibility for the rational operations of the standard library, whose
default irreducibility marking only hides their definitions from unfolding;
evaluation of the concrete floating-point computations below needs them to
unfold. -/
attribute [local semireducible] Rat.add Rat.mul Rat.inv Rat.sub

/-- Scans a run of leading decimal digits, accumulating their value and
count, and returns the unconsumed remainder. -/
def scanDigits : List Char → Nat → Nat → Nat × Nat × List Char
  | [], acc, cnt => (acc, cnt, [])
  | c :: cs, acc, cnt =>
    if '0' ≤ c ∧ c ≤ '9' then scanDigits cs (acc * 10 + (c.toNat - 48)) (cnt + 1)
    else (acc, cnt, c :: cs)

/-- Scans an exponent part after the exponent character: optional sign and a
non-empty digit run; the `Bool` is false when no digits follow. -/
def scanExpDigits : List Char → Bool × Int × List Char
  | '+' :: cs =>
    match scanDigits cs 0 0 with
    | (_, 0, r) => (false, 0, r)
    | (v, _, r) => (true, (v : Int), r)
  | '-' :: cs =>
    match scanDigits cs 0 0 with
    | (_, 0, r) => (false, 0, r)
    | (v, _, r) => (true, -(v : Int), r)
  | cs =>
    match scanDigits cs 0 0 with
    | (_, 0, r) => (false, 0, r)
    | (v, _, r) => (true, (v : Int), r)

/-- Integer power of ten as an exact rational. -/
def pow10Q (e : Int) : ℚ :=
  if e ≥ 0 then ((10 ^ e.toNat : ℕ) : ℚ) else mkRat 1 (10 ^ (-e).toNat)

/-- Integer power of two as an exact rational. -/
def pow2Q (e : Int) : ℚ :=
  if e ≥ 0 then ((2 ^ e.toNat : ℕ) : ℚ) else mkRat 1 (2 ^ (-e).toNat)

/-- Embeds the scan performed by `big.Float.SetString` (beneficiary.go line
176, payer.go line 111) on the decimal forms: optional sign, digit run with
optional fractional part, optional `e`/`E` (power of ten) or `p`/`P` (power
of two) exponent.  Returns the value retained in the receiver together with
the success flag `SetString` reports: the flag is false when no number could
be scanned (value `0`, the receiver untouched), when the exponent is
malformed (the scanned mantissa is retained), or when trailing characters
remain after a successful scan (the scanned prefix value is retained) — the
analyzer code ignores this flag.  The hexadecimal/binary prefixes,
underscore separators and `inf` forms Go also accepts never occur in the
explorer API's value strings and are not modelled. -/
def bigFloatScan (s : String) : ℚ × Bool :=
  let signRest : Bool × List Char :=
    match s.data with
    | '+' :: cs => (false, cs)
    | '-' :: cs => (true, cs)
    | cs => (false, cs)
  let neg := signRest.1
  let r1 := signRest.2
  let intPart := scanDigits r1 0 0
  let ip := intPart.1
  let ic := intPart.2.1
  let r2 := intPart.2.2
  let mantPart :=
    match r2 with
    | '.' :: cs => scanDigits cs ip ic
    | _ => (ip, ic, r2)
  let mant := mantPart.1
  let tc := mantPart.2.1
  let r3 := mantPart.2.2
  if tc = 0 then (0, false)
  else
    let fcnt : Int := (tc : Int) - (ic : Int)
    let sm : ℚ := if neg then -(mant : ℚ) else (mant : ℚ)
    match r3 with
    | 'e' :: cs =>
      match scanExpDigits cs with
      | (true, ex, r4) => (sm * pow10Q (ex - fcnt), r4.isEmpty)
      | (false, _, _) => (sm, false)
    | 'E' :: cs =>
      match scanExpDigits cs with
      | (true, ex, r4) => (sm * pow10Q (ex - fcnt), r4.isEmpty)
      | (false, _, _) => (sm, false)
    | 'p' :: cs =>
      match scanExpDigits cs with
      | (true, ex, r4) => (sm * pow10Q (-fcnt) * pow2Q ex, r4.isEmpty)
      | (false, _, _) => (sm, false)
    | 'P' :: cs =>
      match scanExpDigits cs with
      | (true, ex, r4) => (sm * pow10Q (-fcnt) * pow2Q ex, r4.isEmpty)
      | (false, _, _) => (sm, false)
    | _ => (sm * pow10Q (-fcnt), r3.isEmpty)

/-- Number of binary digits, computed with structural fuel. -/
def bitLenFuel : Nat → Nat → Nat
  | 0, _ => 0
  | fuel + 1, n => if n = 0 then 0 else bitLenFuel fuel (n / 2) + 1

/-- Number of binary digits of a natural number (`0` for `0`). -/
def bitLen (n : Nat) : Nat := bitLenFuel n n

/-- Floor of the base-2 logarithm of the positive rational `n / d`, computed
from the bit lengths of numerator and denominator plus one comparison. -/
def floorLog2Nat (n d : Nat) : Int :=
  let e0 : Int := (bitLen n : Int) - (bitLen d : Int)
  if e0 ≥ 0 then
    if d * 2 ^ e0.toNat ≤ n then e0 else e0 - 1
  else
    if d ≤ n * 2 ^ (-e0).toNat then e0 else e0 - 1

/-- Rounds a rational to the nearest floating-point value with a `p`-bit
significand, ties to even — the rounding `big.Float` applies at precision 64
and `Float64()` at precision 53.  Exponent-range limits (overflow and
subnormals) are not modelled; every value the program handles is far inside
the normal range. -/
def roundFloat (p : Nat) (q : ℚ) : ℚ :=
  if q = 0 then 0
  else
    let n := q.num.natAbs
    let d := q.den
    let e := floorLog2Nat n d
    let k : Int := (p : Int) - 1 - e
    let N := if k ≥ 0 then n * 2 ^ k.toNat else n
    let D := if k ≥ 0 then d else d * 2 ^ (-k).toNat
    let sig := N / D
    let r := N % D
    let sig2 := if 2 * r < D then sig
                else if D < 2 * r then sig + 1
                else if sig % 2 = 0 then sig else sig + 1
    let mag : ℚ := if k ≥ 0 then mkRat (sig2 : Int) (2 ^ k.toNat)
                   else ((sig2 * 2 ^ (-k).toNat : ℕ) : ℚ)
    if q.num < 0 then -mag else mag

/-- Embeds `strconv.ParseInt(s, 10, 64)` (models.go line 65): optional sign,
non-empty digits, and an `int64` range check. -/
def parseInt64 (s : String) : Option Int :=
  match s.data with
  | '+' :: rest =>
    (parseDigits rest).bind fun n =>
      if n ≤ 9223372036854775807 then some (n : Int) else none
  | '-' :: rest =>
    (parseDigits rest).bind fun n =>
      if n ≤ 9223372036854775808 then some (-(n : Int)) else none
  | l =>
    (parseDigits l).bind fun n =>
      if n ≤ 9223372036854775807 then some (n : Int) else none

/-- Embeds the Wei-to-Ether conversion of `processBeneficiary`
(beneficiary.go lines 175-181) and `processPayer` (payer.go lines 110-116):
`value.SetString(valueStr)` scans the string into a precision-64 `big.Float`
with the result flag ignored, `value.Quo(value, divisor)` divides by the
divisor `10^18` (itself exact at 64 bits) rounding to precision 64, and
`value.Float64()` rounds to float64. -/
def toDisplayAmount (valueStr : String) : ℚ :=
  let value := roundFloat 64 (bigFloatScan valueStr).1
  let q := roundFloat 64 (value / 1000000000000000000)
  roundFloat 53 q

/-- Embeds float64 addition, as performed by `b.Amount += amount`
(beneficiary.go line 209, payer.go line 133): the exact sum rounded to a
53-bit significand. -/
def addFloat (x y : ℚ) : ℚ := roundFloat 53 (x + y)

/-- Float64 accumulation of a list of amounts in order: the first amount is
stored directly, each later one added with float64 addition — exactly how an
aggregate's total is built up. -/
def accumulateFloats : List ℚ → ℚ
  | [] => 0
  | a :: l => l.foldl addFloat a

/-- Converts days since 1970-01-01 to a civil (year, month, day) triple,
embedding the Gregorian conversion performed by `time.Unix(..).Format`
for the fixed reference time zone UTC. -/
def civilFromDays (z0 : Int) : Int × Nat × Nat :=
  let z := z0 + 719468
  let era := z.fdiv 146097
  let doe := (z - era * 146097).toNat
  let yoe := (doe - doe / 1460 + doe / 36524 - doe / 146096) / 365
  let y : Int := (yoe : Int) + era * 400
  let doy := doe - (365 * yoe + yoe / 4 - yoe / 100)
  let mp := (5 * doy + 2) / 153
  let d := doy - (153 * mp + 2) / 5 + 1
  let m := if mp < 10 then mp + 3 else mp - 9
  (if m ≤ 2 then y + 1 else y, m, d)

/-- Zero-pads a number to two digits, as the `01`/`02`/`15`/`04`/`05`
components of the Go layout `2006-01-02 15:04:05` do. -/
def pad2 (n : Nat) : String :=
  if n < 10 then "0" ++ toString n else toString n

/-- Zero-pads a number to four digits, as the `2006` year component of the Go
layout does. -/
def pad4 (n : Nat) : String :=
  if n < 10 then "000" ++ toString n
  else if n < 100 then "00" ++ toString n
  else if n < 1000 then "0" ++ toString n
  else toString n

/-- Renders a (possibly negative) year. -/
def yearStr (y : Int) : String :=
  if y < 0 then "-" ++ pad4 (-y).toNat else pad4 y.toNat

/-- Embeds `time.Unix(unixTime, 0).Format("2006-01-02 15:04:05")`
(models.go lines 70-72) with the fixed reference time zone UTC. -/
def fmtTimestamp (t : Int) : String :=
  let days := t.fdiv 86400
  let sod := (t - days * 86400).toNat
  let c := civilFromDays days
  yearStr c.1 ++ "-" ++ pad2 c.2.1 ++ "-" ++ pad2 c.2.2 ++ " " ++
    pad2 (sod / 3600) ++ ":" ++ pad2 (sod % 3600 / 60) ++ ":" ++ pad2 (sod % 60)

/-- Embeds `etherscan.FormatTime` (models.go lines 62-77): parse the timestamp
string as a signed 64-bit integer and format it; `none` embeds the error
return on parse failure. -/
def FormatTime (timestamp : String) : Option String :=
  (parseInt64 timestamp).map fmtTimestamp

/-- Embeds the caller-side fallback of `processBeneficiary` (beneficiary.go
lines 184-190) and `processPayer` (payer.go lines 119-122): on `FormatTime`
failure the original raw timestamp string is used as the display time. -/
def displayTime (timestampStr : String) : String :=
  match FormatTime timestampStr with
  | some dateTime => dateTime
  | none => timestampStr

/-- Embeds `etherscan.Transaction` (models.go lines 24-40): a normal or
internal transaction record. -/
structure Transaction where
  hash : String
  blockNumber : String
  timeStamp : String
  «from» : String
  «to» : String
  value : String
  gas : String
  gasPrice : String
  isError : String
  txReceiptStatus : String
  input : String
  contractAddress : String
  cumulativeGasUsed : String
  gasUsed : String
  confirmations : String
deriving DecidableEq

/-- Embeds `etherscan.TokenTransfer` (models.go lines 43-59): an ERC-20/721/
1155 transfer record; note the absence of any error flag. -/
structure TokenTransfer where
  hash : String
  blockNumber : String
  timeStamp : String
  «from» : String
  «to» : String
  value : String
  tokenName : String
  tokenSymbol : String
  tokenDecimal : String
  contractAddress : String
  gas : String
  gasPrice : String
  gasUsed : String
  cumulativeGasUsed : String
  confirmations : String
deriving DecidableEq

/-- Builds a `Transaction` from the five fields the aggregation reads, the
remaining wire fields left empty. -/
def mkTx (hash timeStamp fromAddr toAddr value isError : String) : Transaction :=
  ⟨hash, "", timeStamp, fromAddr, toAddr, value, "", "", isError, "", "", "", "", "", ""⟩

/-- Builds a `TokenTransfer` from the four fields the aggregation reads. -/
def mkTransfer (hash timeStamp fromAddr toAddr value : String) : TokenTransfer :=
  ⟨hash, "", timeStamp, fromAddr, toAddr, value, "", "", "", "", "", "", "", "", ""⟩

/-- Embeds `analyzer.TransactionDetails` (beneficiary.go lines 35-39). -/
structure TransactionDetails where
  txAmount : ℚ
  dateTime : String
  transactionID : String
deriving DecidableEq

/-- Embeds `analyzer.Beneficiary` (beneficiary.go lines 28-32): one
counterparty aggregate. `analyzer.Payer` (payer.go lines 25-29) has the
identical field shape, so the same structure embeds both. -/
structure Beneficiary where
  address : String
  amount : ℚ
  transactions : List TransactionDetails
deriving DecidableEq

/-- Embeds `analyzer.Payer`; its Go fields coincide with `Beneficiary`. -/
abbrev Payer := Beneficiary

/-- Updates the aggregate for `beneficiaryAddr` in the insertion-ordered
association list embedding the Go map `map[string]*Beneficiary`: an existing
entry gets `amount` added with float64 addition (`b.Amount += amount`) and
the detail appended (beneficiary.go lines 208-210, payer.go lines 132-134);
otherwise a fresh aggregate seeded with the one detail is appended
(beneficiary.go lines 211-216, payer.go lines 135-140). -/
def insertDetail (m : List Beneficiary) (beneficiaryAddr : String) (amount : ℚ)
    (txDetails : TransactionDetails) : List Beneficiary :=
  match m with
  | [] => [⟨beneficiaryAddr, amount, [txDetails]⟩]
  | b :: rest =>
    if b.address = beneficiaryAddr then
      ⟨b.address, addFloat b.amount amount, b.transactions ++ [txDetails]⟩ :: rest
    else
      b :: insertDetail rest beneficiaryAddr amount txDetails

/-- Embeds `processBeneficiary` (beneficiary.go lines 171-218): normalize the
value and timestamp, build the `TransactionDetails`, and add it to the map. -/
def processBeneficiary (beneficiaryMap : List Beneficiary)
    (beneficiaryAddr valueStr hash timestampStr : String) : List Beneficiary :=
  let amount := toDisplayAmount valueStr
  let dateTime := displayTime timestampStr
  let txDetails : TransactionDetails :=
    { txAmount := amount, dateTime := dateTime, transactionID := hash }
  insertDetail beneficiaryMap beneficiaryAddr amount txDetails

/-- Embeds `processPayer` (payer.go lines 106-142); its body is identical to
`processBeneficiary` with the payer map and payer address in place. -/
def processPayer (payerMap : List Payer)
    (payerAddr valueStr hash timestampStr : String) : List Payer :=
  let amount := toDisplayAmount valueStr
  let dateTime := displayTime timestampStr
  let txDetails : TransactionDetails :=
    { txAmount := amount, dateTime := dateTime, transactionID := hash }
  insertDetail payerMap payerAddr amount txDetails

/-- Embeds the aggregation loops of `AnalyzeBeneficiary` (beneficiary.go lines
93-149): scan normal transactions, then internal transactions (both filtered
on `strings.EqualFold(tx.From, address) && tx.IsError == "0"`), then token
transfers (filtered on `strings.EqualFold(transfer.From, address)` only),
feeding each match to `processBeneficiary` keyed by the record's `to` field.
The resulting association list carries the map contents in first-insertion
order. -/
def beneficiariesOf (address : String) (normalTxs internalTxs : List Transaction)
    (tokenTransfers : List TokenTransfer) : List Beneficiary :=
  let m : List Beneficiary := []
  let m := normalTxs.foldl (fun m tx =>
    if equalFold tx.«from» address && (tx.isError == "0") then
      processBeneficiary m tx.«to» tx.value tx.hash tx.timeStamp
    else m) m
  let m := internalTxs.foldl (fun m tx =>
    if equalFold tx.«from» address && (tx.isError == "0") then
      processBeneficiary m tx.«to» tx.value tx.hash tx.timeStamp
    else m) m
  tokenTransfers.foldl (fun m transfer =>
    if equalFold transfer.«from» address then
      processBeneficiary m transfer.«to» transfer.value transfer.hash transfer.timeStamp
    else m) m

/-- Embeds the aggregation loops of `AnalyzePayer` (payer.go lines 70-94):
the direction filter matches the record's `to` field against the queried
address and the counterparty key is the record's `from` field. -/
def payersOf (address : String) (normalTxs internalTxs : List Transaction)
    (tokenTransfers : List TokenTransfer) : List Payer :=
  let m : List Payer := []
  let m := normalTxs.foldl (fun m tx =>
    if equalFold tx.«to» address && (tx.isError == "0") then
      processPayer m tx.«from» tx.value tx.hash tx.timeStamp
    else m) m
  let m := internalTxs.foldl (fun m tx =>
    if equalFold tx.«to» address && (tx.isError == "0") then
      processPayer m tx.«from» tx.value tx.hash tx.timeStamp
    else m) m
  tokenTransfers.foldl (fun m transfer =>
    if equalFold transfer.«to» address then
      processPayer m transfer.«from» transfer.value transfer.hash transfer.timeStamp
    else m) m

/-- Embeds `fmt.Errorf("error fetching …: %w", err)` as performed by the three
goroutines of `AnalyzeBeneficiary` (beneficiary.go lines 55-86) and
`AnalyzePayer` (payer.go lines 41-63). -/
def wrapFetchErr (label : String) (e : String) : String :=
  "error fetching " ++ label ++ ": " ++ e

/-- Embeds the `errgroup` join of the three concurrent fetches
(beneficiary.go lines 88-90, payer.go lines 65-67) restricted to the
race-free schedules: those in which each goroutine's `if err != nil` check
reads the value that goroutine itself just wrote (no sibling write in
between).  Under such schedules a failed fetch yields that goroutine's
wrapped error and an all-successful run yields the three record lists.  The
source shares one `err` variable across the three goroutines, so other
schedules exist in which a sibling's nil write overwrites an error before
its check; `runSchedule` and `AnalyzeBeneficiaryRaceRel` below embed that
full racy semantics.  When all three fetches succeed every write is nil and the
race is immaterial, so on the all-ok branch this join agrees with every
schedule — the only branch the success-path theorems below use. -/
def fetchJoin (rn ri : Except String (List Transaction))
    (rt : Except String (List TokenTransfer)) :
    Except String (List Transaction × List Transaction × List TokenTransfer) :=
  match rn with
  | .error e => .error (wrapFetchErr "normal transactions" e)
  | .ok n =>
    match ri with
    | .error e => .error (wrapFetchErr "internal transactions" e)
    | .ok i =>
      match rt with
      | .error e => .error (wrapFetchErr "token transfers" e)
      | .ok t => .ok (n, i, t)

/-- Embeds the observable behaviour of `AnalyzeBeneficiary` (beneficiary.go
lines 42-168) under race-free schedules, as a relation between the three
fetch outcomes and the returned value: a fetch error is propagated wrapped
and no list is returned (lines 88-90); on success of all three fetches —
the branch where the shared-`err` race is immaterial — the returned slice is
built by ranging over the Go map `beneficiaryMap` (lines 151-155), whose
iteration order is unspecified, so the relation admits every permutation of
the insertion-ordered contents.  `AnalyzeBeneficiaryRaceRel` is the full
racy semantics. -/
def AnalyzeBeneficiaryRel (address : String)
    (rn ri : Except String (List Transaction))
    (rt : Except String (List TokenTransfer))
    (res : Except String (List Beneficiary)) : Prop :=
  match fetchJoin rn ri rt with
  | .error e => res = .error e
  | .ok (n, i, t) => ∃ l, res = .ok l ∧ l.Perm (beneficiariesOf address n i t)

/-- Embeds the observable behaviour of `AnalyzePayer` (payer.go lines 32-103)
in the same way, under race-free schedules: errors propagate wrapped, and a
success is any permutation of the insertion-ordered payer map contents
(lines 96-100).  `AnalyzePayerRaceRel` is the full racy semantics. -/
def AnalyzePayerRel (address : String)
    (rn ri : Except String (List Transaction))
    (rt : Except String (List TokenTransfer))
    (res : Except String (List Payer)) : Prop :=
  match fetchJoin rn ri rt with
  | .error e => res = .error e
  | .ok (n, i, t) => ∃ l, res = .ok l ∧ l.Perm (payersOf address n i t)

/-- Embeds `etherscan.TransactionResponse` (models.go lines 10-14). -/
structure TransactionResponse where
  status : String
  message : String
  result : List Transaction
deriving DecidableEq

/-- Embeds `etherscan.TokenTransferResponse` (models.go lines 17-21). -/
structure TokenTransferResponse where
  status : String
  message : String
  result : List TokenTransfer
deriving DecidableEq

/-- Embeds the envelope handling of `fetchTransactions` after a successful
transport and JSON decode (client.go lines 432-462): `status "0"` with message
`"No transactions found"` is an empty, non-error outcome; any other
`status "0"` is a provider error; otherwise the decoded records are returned
verbatim. -/
def handleTransactionResponse (result : TransactionResponse) :
    Except String (List Transaction) :=
  if result.status == "0" && (result.message == "No transactions found") then
    .ok []
  else if result.status == "0" then
    .error ("etherscan API error: " ++ result.message)
  else
    .ok result.result

/-- Embeds the envelope handling of `GetTokenTransfers` (client.go lines
334-357). `errResult` embeds the second unmarshal attempt of the body into a
string-valued `result` field: `some s` when that unmarshal succeeds with
result text `s`, `none` when it fails. -/
def handleTokenTransferResponse (result : TokenTransferResponse)
    (errResult : Option String) : Except String (List TokenTransfer) :=
  if result.status == "0" then
    if result.message == "No transactions found" then
      .ok []
    else
      match errResult with
      | some s =>
        if s ≠ "" then
          if s == "Max rate limit reached" then
            .error "etherscan API rate limit exceeded, please try again later"
          else
            .error ("etherscan API error: " ++ s)
        else
          .error ("etherscan API error: " ++ result.message)
      | none => .error ("etherscan API error: " ++ result.message)
  else
    .ok result.result

/-- Number of transport attempts of `fetchTransactions` (client.go line 375). -/
def maxRetries : Nat := 3

/-- Embeds the retry loop of `fetchTransactions` (client.go lines 379-390)
over the listed attempt indices: before every attempt with positive index the
loop sleeps `retry * retry` seconds (recorded in the returned wait list), then
issues the request through the transport oracle `get`; the first success stops
the loop.  Returns the final outcome and every backoff wait performed. -/
def retrySteps {α : Type} (get : Nat → Option α) : List Nat → Option α × List Nat
  | [] => (none, [])
  | retry :: rest =>
    let waits : List Nat := if retry > 0 then [retry * retry] else []
    match get retry with
    | some v => (some v, waits)
    | none =>
      let r := retrySteps get rest
      (r.1, waits ++ r.2)

/-- Embeds the transport phase of `fetchTransactions` (client.go lines
373-394): up to `maxRetries` attempts with quadratic backoff; `none` embeds
the wrapped transport error surfaced after the attempts are exhausted. -/
def fetchTransactionsTransport {α : Type} (get : Nat → Option α) : Option α × List Nat :=
  retrySteps get (List.range maxRetries)

/-- Embeds the transport phase of `GetTokenTransfers` (client.go lines
307-310): one single request, no retry, no backoff. -/
def getTokenTransfersTransport {α : Type} (get : Nat → Option α) : Option α × List Nat :=
  (get 0, [])

/-- One filtered record as fed to `processBeneficiary` / `processPayer`:
the counterparty key together with the value, hash and timestamp strings. -/
structure Contribution where
  key : String
  value : String
  hash : String
  timeStamp : String
deriving DecidableEq

/-- Display amount of a contribution. -/
def contribAmount (c : Contribution) : ℚ := toDisplayAmount c.value

/-- The `TransactionDetails` built from a contribution by
`processBeneficiary` / `processPayer`. -/
def contribDetail (c : Contribution) : TransactionDetails :=
  { txAmount := contribAmount c
    dateTime := displayTime c.timeStamp
    transactionID := c.hash }

/-- Feeds a list of contributions through `processBeneficiary` in order. -/
def processList : List Beneficiary → List Contribution → List Beneficiary
  | m, [] => m
  | m, c :: cs => processList (processBeneficiary m c.key c.value c.hash c.timeStamp) cs

/-- First aggregate with the given address, mirroring the Go map lookup
`beneficiaryMap[beneficiaryAddr]`. -/
def lookupB : List Beneficiary → String → Option Beneficiary
  | [], _ => none
  | b :: rest, k => if b.address = k then some b else lookupB rest k

/-- Contributions whose counterparty key is `k`. -/
def selectKey (cs : List Contribution) (k : String) : List Contribution :=
  cs.filter (fun c => c.key == k)

/-- Effect of one same-key contribution on one map slot: an absent slot gets
a fresh aggregate, a present one is bumped with float64 addition and the
appended detail — mirroring the two branches of `processBeneficiary`. -/
def slotStep (k : String) (o : Option Beneficiary) (c : Contribution) : Option Beneficiary :=
  match o with
  | none => some ⟨k, contribAmount c, [contribDetail c]⟩
  | some b =>
    some ⟨b.address, addFloat b.amount (contribAmount c),
      b.transactions ++ [contribDetail c]⟩

/-- Effect of a batch of same-key contributions on one map slot, in order. -/
def updSlot (o : Option Beneficiary) (k : String) (l : List Contribution) :
    Option Beneficiary :=
  l.foldl (slotStep k) o

/-- Contribution extracted from a transaction or transfer in beneficiary
mode: the counterparty key is the record's `to` field. -/
def outTxContrib (tx : Transaction) : Contribution :=
  ⟨tx.«to», tx.value, tx.hash, tx.timeStamp⟩

/-- Beneficiary-mode contribution of a token transfer. -/
def outTrContrib (tr : TokenTransfer) : Contribution :=
  ⟨tr.«to», tr.value, tr.hash, tr.timeStamp⟩

/-- Contribution extracted in payer mode: the counterparty key is the
record's `from` field. -/
def inTxContrib (tx : Transaction) : Contribution :=
  ⟨tx.«from», tx.value, tx.hash, tx.timeStamp⟩

/-- Payer-mode contribution of a token transfer. -/
def inTrContrib (tr : TokenTransfer) : Contribution :=
  ⟨tr.«from», tr.value, tr.hash, tr.timeStamp⟩

/-- Records passing the beneficiary-mode direction and error filters, in scan
order (normal, then internal, then token transfers), projected to their
contributions. -/
def outContribs (address : String) (normalTxs internalTxs : List Transaction)
    (tokenTransfers : List TokenTransfer) : List Contribution :=
  (normalTxs.filter (fun tx => equalFold tx.«from» address && (tx.isError == "0"))).map outTxContrib
    ++ (internalTxs.filter (fun tx => equalFold tx.«from» address && (tx.isError == "0"))).map outTxContrib
    ++ (tokenTransfers.filter (fun tr => equalFold tr.«from» address)).map outTrContrib

/-- Records passing the payer-mode direction and error filters, in scan
order, projected to their contributions. -/
def inContribs (address : String) (normalTxs internalTxs : List Transaction)
    (tokenTransfers : List TokenTransfer) : List Contribution :=
  (normalTxs.filter (fun tx => equalFold tx.«to» address && (tx.isError == "0"))).map inTxContrib
    ++ (internalTxs.filter (fun tx => equalFold tx.«to» address && (tx.isError == "0"))).map inTxContrib
    ++ (tokenTransfers.filter (fun tr => equalFold tr.«to» address)).map inTrContrib

/-- Exact (rational) sum, over a list of aggregates, of the sums of their own
detail amounts. -/
def sumDetails (m : List Beneficiary) : ℚ :=
  (m.map (fun b => (b.transactions.map (fun d => d.txAmount)).sum)).sum

/-- Per-aggregate invariant: the aggregate owns at least one detail and its
running total is the float64 accumulation, in order, of its details'
amounts — exactly how `processBeneficiary` builds it. -/
def amountInv (b : Beneficiary) : Prop :=
  b.transactions ≠ [] ∧
    b.amount = accumulateFloats (b.transactions.map (fun d => d.txAmount))

/-- Two successful normal transactions from the queried address to two
distinct counterparties; the input exhibiting the output-order bug. -/
def c1NormalTxs : List Transaction :=
  [mkTx "h1" "1690000000" "0xa" "0xb" "7" "0",
   mkTx "h2" "1690000000" "0xa" "0xc" "9" "0"]

/-- Aggregate produced for counterparty `0xb` on `c1NormalTxs`. -/
def c1AggB : Beneficiary :=
  ⟨"0xb", toDisplayAmount "7", [⟨toDisplayAmount "7", displayTime "1690000000", "h1"⟩]⟩

/-- Aggregate produced for counterparty `0xc` on `c1NormalTxs`. -/
def c1AggC : Beneficiary :=
  ⟨"0xc", toDisplayAmount "9", [⟨toDisplayAmount "9", displayTime "1690000000", "h2"⟩]⟩

/-- One memory event of a fetch goroutine on the shared `err` variable
(beneficiary.go lines 51-90, payer.go lines 37-63): goroutine `i` first
writes its fetch's error into the shared `err` (the multi-assignment
`…, err = …`), then later reads the same shared `err` in its
`if err != nil` check. -/
inductive GoEvent where
  | write : Fin 3 → GoEvent
  | check : Fin 3 → GoEvent
deriving DecidableEq

/-- Fetch label used in the goroutines' wrapped error messages, by goroutine
index: normal, internal, token. -/
def fetchLabel (i : Fin 3) : String :=
  if i.val = 0 then "normal transactions"
  else if i.val = 1 then "internal transactions"
  else "token transfers"

/-- State of one analysis run's error plumbing: the shared `err` variable and
the first non-nil goroutine return recorded by `errgroup.Wait`. -/
structure EgState where
  sharedErr : Option String
  firstErr : Option String
deriving DecidableEq

/-- Embeds one event: a write stores goroutine `i`'s fetch error (or nil)
into the shared variable; a check reads the shared variable and, when it is
non-nil, returns `fmt.Errorf("error fetching <label i>: %w", err)` to the
errgroup, which keeps the first non-nil return. -/
def stepEvent (errOf : Fin 3 → Option String) (st : EgState) : GoEvent → EgState
  | .write i => { st with sharedErr := errOf i }
  | .check i =>
    match st.sharedErr with
    | none => st
    | some e =>
      match st.firstErr with
      | none => { st with firstErr := some (wrapFetchErr (fetchLabel i) e) }
      | some _ => st

/-- Runs an interleaving of the six goroutine events from the initial state
(shared `err` nil, no error recorded). -/
def runSchedule (errOf : Fin 3 → Option String) (s : List GoEvent) : EgState :=
  s.foldl (stepEvent errOf) ⟨none, none⟩

/-- The six events of one analysis run. -/
def allGoEvents : List GoEvent :=
  [.write 0, .check 0, .write 1, .check 1, .write 2, .check 2]

/-- A schedule is an interleaving of the six events in which every
goroutine's write precedes its own check. -/
def validSchedule (s : List GoEvent) : Prop :=
  s.Perm allGoEvents ∧ ∀ i : Fin 3, s.indexOf (.write i) < s.indexOf (.check i)

/-- Error component of a fetch outcome (`nil` for success). -/
def fetchErrOf {α : Type} : Except String α → Option String
  | .error e => some e
  | .ok _ => none

/-- Record list left in a goroutine's result slot: the fetched records on
success, the `nil` slice (ranging as empty) when the fetch errored. -/
def fetchSlot {α : Type} : Except String (List α) → List α
  | .error _ => []
  | .ok l => l

/-- Per-goroutine fetch errors of one run: normal, internal, token. -/
def egErrOf (rn ri : Except String (List Transaction))
    (rt : Except String (List TokenTransfer)) : Fin 3 → Option String :=
  fun i => if i.val = 0 then fetchErrOf rn
    else if i.val = 1 then fetchErrOf ri
    else fetchErrOf rt

/-- Embeds the observable behaviour of `AnalyzeBeneficiary` under an explicit
goroutine schedule, shared-`err` race included: if the run records a first
error, that wrapped error is returned; otherwise `eg.Wait()` returns nil and
the aggregation proceeds over the result slots (a failed fetch left a nil
slice), the returned list being any permutation of the map contents. -/
def AnalyzeBeneficiaryRaceRel (address : String)
    (rn ri : Except String (List Transaction))
    (rt : Except String (List TokenTransfer)) (s : List GoEvent)
    (res : Except String (List Beneficiary)) : Prop :=
  match (runSchedule (egErrOf rn ri rt) s).firstErr with
  | some w => res = .error w
  | none => ∃ l, res = .ok l ∧
      l.Perm (beneficiariesOf address (fetchSlot rn) (fetchSlot ri) (fetchSlot rt))

/-- Embeds the observable behaviour of `AnalyzePayer` under an explicit
goroutine schedule, shared-`err` race included. -/
def AnalyzePayerRaceRel (address : String)
    (rn ri : Except String (List Transaction))
    (rt : Except String (List TokenTransfer)) (s : List GoEvent)
    (res : Except String (List Payer)) : Prop :=
  match (runSchedule (egErrOf rn ri rt) s).firstErr with
  | some w => res = .error w
  | none => ∃ l, res = .ok l ∧
      l.Perm (payersOf address (fetchSlot rn) (fetchSlot ri) (fetchSlot rt))

/-- The interleaving in which the token goroutine's nil write lands between
the internal goroutine's error write and the internal goroutine's check. -/
def c6RacySchedule : List GoEvent :=
  [.write 0, .check 0, .write 1, .write 2, .check 1, .check 2]

/-- One successful outgoing/incoming normal transaction between `0xa` and
`0xb`, fetched while the internal-transaction fetch fails. -/
def c6Tx : Transaction := mkTx "h1" "1690000000" "0xa" "0xb" "1000000000000000000" "0"

/-- The (partial) beneficiary aggregate built from `c6Tx` alone. -/
def c6AggB : Beneficiary :=
  ⟨"0xb", toDisplayAmount "1000000000000000000",
    [⟨toDisplayAmount "1000000000000000000", displayTime "1690000000", "h1"⟩]⟩

/-- The (partial) payer aggregate built from `c6Tx` alone. -/
def c6AggP : Payer :=
  ⟨"0xa", toDisplayAmount "1000000000000000000",
    [⟨toDisplayAmount "1000000000000000000", displayTime "1690000000", "h1"⟩]⟩

/-- Four successful outgoing normal transactions whose float64 totals break
the regrouped-sum conservation: `2^53` Wei-scaled and three times `1` Ether,
grouped `0xb`, `0xb`, `0xc`, `0xc`. -/
def c5Txs : List Transaction :=
  [mkTx "h1" "1690000000" "0xa" "0xb" "9007199254740992000000000000000000" "0",
   mkTx "h2" "1690000000" "0xa" "0xb" "1000000000000000000" "0",
   mkTx "h3" "1690000000" "0xa" "0xc" "1000000000000000000" "0",
   mkTx "h4" "1690000000" "0xa" "0xc" "1000000000000000000" "0"]

/-- Running a batch of no contributions leaves a map slot unchanged. -/
theorem updSlot_nil (o : Option Beneficiary) (k : String) : updSlot o k [] = o := rfl

/-- Looking up the inserted key after `insertDetail`: a fresh aggregate when
the key was absent, the bumped aggregate when it was present. -/
theorem lookupB_insertDetail_self (m : List Beneficiary) (k : String) (a : ℚ)
    (d : TransactionDetails) :
    lookupB (insertDetail m k a d) k =
      some (match lookupB m k with
        | none => ⟨k, a, [d]⟩
        | some b => ⟨b.address, addFloat b.amount a, b.transactions ++ [d]⟩) := by
  induction m with
  | nil => simp [insertDetail, lookupB]
  | cons b rest ih =>
    by_cases h : b.address = k
    · simp [insertDetail, lookupB, h]
    · simp [insertDetail, lookupB, h, ih]

/-- Looking up any other key is unaffected by `insertDetail`. -/
theorem lookupB_insertDetail_ne (m : List Beneficiary) (k k₂ : String) (a : ℚ)
    (d : TransactionDetails) (h : k₂ ≠ k) :
    lookupB (insertDetail m k a d) k₂ = lookupB m k₂ := by
  induction m with
  | nil => simp [insertDetail, lookupB, Ne.symm h]
  | cons b rest ih =>
    by_cases hb : b.address = k
    · simp [insertDetail, lookupB, hb, Ne.symm h]
    · by_cases hb2 : b.address = k₂
      · simp [insertDetail, lookupB, hb, hb2, h]
      · simp [insertDetail, lookupB, hb, hb2, ih]

/-- `processBeneficiary` on the fields of a contribution is `insertDetail` of
its amount and detail. -/
theorem processBeneficiary_contrib (m : List Beneficiary) (c : Contribution) :
    processBeneficiary m c.key c.value c.hash c.timeStamp =
      insertDetail m c.key (contribAmount c) (contribDetail c) := rfl

/-- `processPayer` coincides with `processBeneficiary` on a contribution. -/
theorem processPayer_contrib (m : List Payer) (c : Contribution) :
    processPayer m c.key c.value c.hash c.timeStamp =
      insertDetail m c.key (contribAmount c) (contribDetail c) := rfl

/-- Inserting a contribution's amount and detail acts on the slot of its own
key as one `slotStep`. -/
theorem lookupB_insert_slotStep (m : List Beneficiary) (c : Contribution) :
    lookupB (insertDetail m c.key (contribAmount c) (contribDetail c)) c.key =
      slotStep c.key (lookupB m c.key) c := by
  rw [lookupB_insertDetail_self]
  cases lookupB m c.key <;> rfl

/-- Master characterisation of one map slot after a contribution stream:
the slot for `k` is determined by the prior slot and the same-key batch. -/
theorem lookupB_processList (cs : List Contribution) :
    ∀ (m : List Beneficiary) (k : String),
      lookupB (processList m cs) k = updSlot (lookupB m k) k (selectKey cs k) := by
  induction cs with
  | nil => intro m k; rfl
  | cons c cs ih =>
    intro m k
    by_cases h : c.key = k
    · subst h
      have hsel : selectKey (c :: cs) c.key = c :: selectKey cs c.key := by
        simp [selectKey]
      rw [processList, processBeneficiary_contrib, ih, lookupB_insert_slotStep, hsel]
      rfl
    · have hsel : selectKey (c :: cs) k = selectKey cs k := by
        simp [selectKey, h]
      rw [processList, processBeneficiary_contrib, ih,
        lookupB_insertDetail_ne _ _ _ _ _ (fun hh => h hh.symm), hsel]

/-- A successful lookup returns a member of the list. -/
theorem lookupB_mem (m : List Beneficiary) (k : String) (b : Beneficiary)
    (h : lookupB m k = some b) : b ∈ m := by
  induction m with
  | nil => simp [lookupB] at h
  | cons x rest ih =>
    simp only [lookupB] at h
    by_cases hx : x.address = k
    · rw [if_pos hx] at h
      injection h with h
      subst h
      exact List.mem_cons_self x rest
    · rw [if_neg hx] at h
      exact List.mem_cons_of_mem _ (ih h)

/-- `insertDetail` adds exactly its detail's amount to the exact grand total
of detail amounts. -/
theorem sumDetails_insertDetail (m : List Beneficiary) (k : String) (a : ℚ)
    (d : TransactionDetails) :
    sumDetails (insertDetail m k a d) = sumDetails m + d.txAmount := by
  induction m with
  | nil => simp [insertDetail, sumDetails]
  | cons b rest ih =>
    by_cases h : b.address = k
    · simp only [insertDetail, if_pos h, sumDetails, List.map_cons, List.sum_cons,
        List.map_append, List.sum_append, List.map_nil, List.sum_nil]
      ring
    · simp only [insertDetail, if_neg h, sumDetails, List.map_cons, List.sum_cons] at ih ⊢
      rw [ih]
      ring

/-- The exact grand total of detail amounts after a contribution stream is
the prior total plus the exact sum of all contribution amounts. -/
theorem sumDetails_processList (cs : List Contribution) :
    ∀ m, sumDetails (processList m cs) = sumDetails m + (cs.map contribAmount).sum := by
  induction cs with
  | nil => intro m; simp [processList]
  | cons c cs ih =>
    intro m
    rw [processList, processBeneficiary_contrib, ih, sumDetails_insertDetail]
    have hct : (contribDetail c).txAmount = contribAmount c := rfl
    rw [hct]
    simp only [List.map_cons, List.sum_cons]
    ring

/-- Appending one amount to a non-empty accumulation is one float64
addition. -/
theorem accumulateFloats_append_one (l : List ℚ) (a : ℚ) (h : l ≠ []) :
    accumulateFloats (l ++ [a]) = addFloat (accumulateFloats l) a := by
  cases l with
  | nil => exact absurd rfl h
  | cons x rest => simp [accumulateFloats, List.foldl_append]

/-- `insertDetail` preserves the per-aggregate float-accumulation invariant
whenever the inserted detail carries the inserted amount. -/
theorem amountInv_insertDetail (k : String) (a : ℚ) (d : TransactionDetails)
    (hd : d.txAmount = a) :
    ∀ (m : List Beneficiary), (∀ b ∈ m, amountInv b) →
      ∀ b ∈ insertDetail m k a d, amountInv b := by
  intro m
  induction m with
  | nil =>
    intro _ b hb
    simp only [insertDetail, List.mem_singleton] at hb
    subst hb
    exact ⟨by simp, by simp [accumulateFloats, hd]⟩
  | cons x rest ih =>
    intro hm b hb
    by_cases hx : x.address = k
    · simp only [insertDetail, if_pos hx] at hb
      rcases List.mem_cons.mp hb with rfl | hb
      · have hxinv := hm x (List.mem_cons_self _ _)
        refine ⟨by simp, ?_⟩
        have hmap : x.transactions.map (fun d => d.txAmount) ≠ [] := by
          intro hmap
          exact hxinv.1 (List.map_eq_nil_iff.mp hmap)
        simp only [List.map_append, List.map_cons, List.map_nil]
        rw [accumulateFloats_append_one _ _ hmap, ← hxinv.2, hd]
      · exact hm b (List.mem_cons_of_mem _ hb)
    · simp only [insertDetail, if_neg hx] at hb
      rcases List.mem_cons.mp hb with rfl | hb
      · exact hm _ (List.mem_cons_self _ _)
      · exact ih (fun y hy => hm y (List.mem_cons_of_mem _ hy)) b hb

/-- Every aggregate built by a contribution stream satisfies the
per-aggregate total invariant. -/
theorem amountInv_processList (cs : List Contribution) :
    ∀ m, (∀ b ∈ m, amountInv b) → ∀ b ∈ processList m cs, amountInv b := by
  induction cs with
  | nil =>
    intro m hm b hb
    simp only [processList] at hb
    exact hm b hb
  | cons c cs ih =>
    intro m hm
    simp only [processList, processBeneficiary_contrib]
    exact ih _ (amountInv_insertDetail c.key (contribAmount c) (contribDetail c) rfl m hm)

/-- Any member of an updated map has an address drawn from the prior map or
equal to the inserted key. -/
theorem address_mem_insertDetail (k : String) (a : ℚ) (d : TransactionDetails) :
    ∀ (m : List Beneficiary) (b : Beneficiary), b ∈ insertDetail m k a d →
      b.address ∈ m.map (fun x => x.address) ∨ b.address = k := by
  intro m
  induction m with
  | nil =>
    intro b hb
    simp only [insertDetail, List.mem_singleton] at hb
    subst hb
    right
    rfl
  | cons x rest ih =>
    intro b hb
    by_cases hx : x.address = k
    · simp only [insertDetail, if_pos hx] at hb
      rcases List.mem_cons.mp hb with hb | hb
      · subst hb
        left
        simp [List.map_cons]
      · left
        simp only [List.map_cons]
        exact List.mem_cons_of_mem _ (List.mem_map_of_mem _ hb)
    · simp only [insertDetail, if_neg hx] at hb
      rcases List.mem_cons.mp hb with hb | hb
      · subst hb
        left
        simp [List.map_cons]
      · rcases ih b hb with h | h
        · left
          simp only [List.map_cons]
          exact List.mem_cons_of_mem _ h
        · right
          exact h

/-- Any member of the map after a contribution stream has an address drawn
from the prior map or from the stream's counterparty keys. -/
theorem address_mem_processList (cs : List Contribution) :
    ∀ (m : List Beneficiary) (b : Beneficiary), b ∈ processList m cs →
      b.address ∈ m.map (fun x => x.address) ∨ b.address ∈ cs.map Contribution.key := by
  induction cs with
  | nil =>
    intro m b hb
    simp only [processList] at hb
    left
    exact List.mem_map_of_mem _ hb
  | cons c cs ih =>
    intro m b hb
    simp only [processList, processBeneficiary_contrib] at hb
    rcases ih _ b hb with h | h
    · rcases List.mem_map.mp h with ⟨y, hy, hyb⟩
      rcases address_mem_insertDetail c.key (contribAmount c) (contribDetail c) m y hy with h2 | h2
      · left
        rw [← hyb]
        exact h2
      · right
        rw [← hyb, h2]
        simp [List.map_cons]
    · right
      simp only [List.map_cons]
      exact List.mem_cons_of_mem _ h

/-- Running a batch on a present slot keeps the address and appends exactly
the batch's details in order. -/
theorem updSlot_some_spec (k : String) (l : List Contribution) :
    ∀ b : Beneficiary, ∃ b2, updSlot (some b) k l = some b2 ∧
      b2.address = b.address ∧ b2.transactions = b.transactions ++ l.map contribDetail := by
  induction l with
  | nil => intro b; exact ⟨b, rfl, rfl, by simp⟩
  | cons c l ih =>
    intro b
    obtain ⟨b2, h1, h2, h3⟩ :=
      ih ⟨b.address, addFloat b.amount (contribAmount c), b.transactions ++ [contribDetail c]⟩
    refine ⟨b2, h1, h2, ?_⟩
    rw [h3]
    simp

/-- Every contribution of a stream ends up as a detail of the aggregate
keyed by its counterparty. -/
theorem contribution_detail_mem (cs : List Contribution) (c₀ : Contribution)
    (h : c₀ ∈ cs) :
    ∃ b ∈ processList [] cs, b.address = c₀.key ∧ contribDetail c₀ ∈ b.transactions := by
  have hl := lookupB_processList cs [] c₀.key
  have hsel : c₀ ∈ selectKey cs c₀.key := by simp [selectKey, h]
  cases hsk : selectKey cs c₀.key with
  | nil =>
    rw [hsk] at hsel
    simp at hsel
  | cons x xs =>
    rw [hsk] at hl
    obtain ⟨b2, h1, h2, h3⟩ :=
      updSlot_some_spec c₀.key xs ⟨c₀.key, contribAmount x, [contribDetail x]⟩
    have hsome : lookupB (processList [] cs) c₀.key = some b2 := by
      rw [hl]
      exact h1
    refine ⟨b2, lookupB_mem _ _ _ hsome, h2, ?_⟩
    rw [h3]
    rw [hsk] at hsel
    simpa using List.mem_map_of_mem contribDetail hsel

/-- Processing an appended stream processes the pieces in order. -/
theorem processList_append (cs₁ cs₂ : List Contribution) :
    ∀ m, processList m (cs₁ ++ cs₂) = processList (processList m cs₁) cs₂ := by
  induction cs₁ with
  | nil => intro m; simp [processList]
  | cons c cs ih =>
    intro m
    simp only [List.cons_append, processList]
    exact ih _

/-- Fusion of a filtered scan loop into `processList` over the filtered,
projected contribution stream. -/
theorem foldl_filter_processList {α : Type} (p : α → Bool) (f : α → Contribution)
    (l : List α) :
    ∀ m, l.foldl (fun m x => if p x then
        processBeneficiary m (f x).key (f x).value (f x).hash (f x).timeStamp else m) m
      = processList m ((l.filter p).map f) := by
  induction l with
  | nil => intro m; simp [processList]
  | cons x l ih =>
    intro m
    by_cases h : p x = true
    · simp only [List.foldl_cons, List.filter_cons, h, if_true, List.map_cons, processList]
      exact ih _
    · simp only [List.foldl_cons, List.filter_cons, h, if_false, Bool.false_eq_true,
        if_neg h]
      exact ih _

/-- Fusion instance for the normal/internal scan of `AnalyzeBeneficiary`. -/
theorem foldl_out_tx (address : String) (l : List Transaction) :
    ∀ m, l.foldl (fun m tx => if equalFold tx.«from» address && (tx.isError == "0")
        then processBeneficiary m tx.«to» tx.value tx.hash tx.timeStamp else m) m
      = processList m
          ((l.filter (fun tx => equalFold tx.«from» address && (tx.isError == "0"))).map outTxContrib) :=
  foldl_filter_processList _ outTxContrib l

/-- Fusion instance for the token-transfer scan of `AnalyzeBeneficiary`. -/
theorem foldl_out_tr (address : String) (l : List TokenTransfer) :
    ∀ m, l.foldl (fun m tr => if equalFold tr.«from» address
        then processBeneficiary m tr.«to» tr.value tr.hash tr.timeStamp else m) m
      = processList m ((l.filter (fun tr => equalFold tr.«from» address)).map outTrContrib) :=
  foldl_filter_processList _ outTrContrib l

/-- Fusion instance for the normal/internal scan of `AnalyzePayer`. -/
theorem foldl_in_tx (address : String) (l : List Transaction) :
    ∀ m, l.foldl (fun m tx => if equalFold tx.«to» address && (tx.isError == "0")
        then processPayer m tx.«from» tx.value tx.hash tx.timeStamp else m) m
      = processList m
          ((l.filter (fun tx => equalFold tx.«to» address && (tx.isError == "0"))).map inTxContrib) :=
  foldl_filter_processList _ inTxContrib l

/-- Fusion instance for the token-transfer scan of `AnalyzePayer`. -/
theorem foldl_in_tr (address : String) (l : List TokenTransfer) :
    ∀ m, l.foldl (fun m tr => if equalFold tr.«to» address
        then processPayer m tr.«from» tr.value tr.hash tr.timeStamp else m) m
      = processList m ((l.filter (fun tr => equalFold tr.«to» address)).map inTrContrib) :=
  foldl_filter_processList _ inTrContrib l

/-- The beneficiary aggregation loops are `processList` over the filtered
beneficiary-mode contribution stream. -/
theorem beneficiariesOf_processList (address : String) (n i : List Transaction)
    (t : List TokenTransfer) :
    beneficiariesOf address n i t = processList [] (outContribs address n i t) := by
  simp only [beneficiariesOf, outContribs]
  rw [foldl_out_tx, foldl_out_tx, foldl_out_tr, processList_append, processList_append]

/-- The payer aggregation loops are `processList` over the filtered
payer-mode contribution stream. -/
theorem payersOf_processList (address : String) (n i : List Transaction)
    (t : List TokenTransfer) :
    payersOf address n i t = processList [] (inContribs address n i t) := by
  simp only [payersOf, inContribs]
  rw [foldl_in_tx, foldl_in_tx, foldl_in_tr, processList_append, processList_append]

/-- Replacing the queried address by one differing only in letter case does
not change the beneficiary analysis. -/
theorem beneficiariesOf_case_insensitive (a₁ a₂ : String)
    (h : lowerString a₁ = lowerString a₂) (n i : List Transaction)
    (t : List TokenTransfer) :
    beneficiariesOf a₁ n i t = beneficiariesOf a₂ n i t := by
  simp only [beneficiariesOf, equalFold, h]

/-- Replacing the queried address by one differing only in letter case does
not change the payer analysis. -/
theorem payersOf_case_insensitive (a₁ a₂ : String)
    (h : lowerString a₁ = lowerString a₂) (n i : List Transaction)
    (t : List TokenTransfer) :
    payersOf a₁ n i t = payersOf a₂ n i t := by
  simp only [payersOf, equalFold, h]

/-- Every counterparty key of the beneficiary-mode contribution stream comes
from a record whose `from` field matches the queried address case
insensitively, the key being that record's `to` field. -/
theorem outContribs_key_source (address : String) (n i : List Transaction)
    (t : List TokenTransfer) (k : String)
    (h : k ∈ (outContribs address n i t).map Contribution.key) :
    (∃ tx ∈ n ++ i, equalFold tx.«from» address = true ∧ tx.«to» = k) ∨
    (∃ tr ∈ t, equalFold tr.«from» address = true ∧ tr.«to» = k) := by
  simp only [outContribs, List.map_append, List.mem_append] at h
  rcases h with (h | h) | h
  · left
    rcases List.mem_map.mp h with ⟨c, hc, hck⟩
    rcases List.mem_map.mp hc with ⟨tx, htx, rfl⟩
    have hf := List.mem_filter.mp htx
    refine ⟨tx, List.mem_append.mpr (Or.inl hf.1), ((Bool.and_eq_true _ _).mp hf.2).1, hck⟩
  · left
    rcases List.mem_map.mp h with ⟨c, hc, hck⟩
    rcases List.mem_map.mp hc with ⟨tx, htx, rfl⟩
    have hf := List.mem_filter.mp htx
    refine ⟨tx, List.mem_append.mpr (Or.inr hf.1), ((Bool.and_eq_true _ _).mp hf.2).1, hck⟩
  · right
    rcases List.mem_map.mp h with ⟨c, hc, hck⟩
    rcases List.mem_map.mp hc with ⟨tr, htr, rfl⟩
    have hf := List.mem_filter.mp htr
    exact ⟨tr, hf.1, hf.2, hck⟩

/-- Every counterparty key of the payer-mode contribution stream comes from a
record whose `to` field matches the queried address case insensitively, the
key being that record's `from` field. -/
theorem inContribs_key_source (address : String) (n i : List Transaction)
    (t : List TokenTransfer) (k : String)
    (h : k ∈ (inContribs address n i t).map Contribution.key) :
    (∃ tx ∈ n ++ i, equalFold tx.«to» address = true ∧ tx.«from» = k) ∨
    (∃ tr ∈ t, equalFold tr.«to» address = true ∧ tr.«from» = k) := by
  simp only [inContribs, List.map_append, List.mem_append] at h
  rcases h with (h | h) | h
  · left
    rcases List.mem_map.mp h with ⟨c, hc, hck⟩
    rcases List.mem_map.mp hc with ⟨tx, htx, rfl⟩
    have hf := List.mem_filter.mp htx
    refine ⟨tx, List.mem_append.mpr (Or.inl hf.1), ((Bool.and_eq_true _ _).mp hf.2).1, hck⟩
  · left
    rcases List.mem_map.mp h with ⟨c, hc, hck⟩
    rcases List.mem_map.mp hc with ⟨tx, htx, rfl⟩
    have hf := List.mem_filter.mp htx
    refine ⟨tx, List.mem_append.mpr (Or.inr hf.1), ((Bool.and_eq_true _ _).mp hf.2).1, hck⟩
  · right
    rcases List.mem_map.mp h with ⟨c, hc, hck⟩
    rcases List.mem_map.mp hc with ⟨tr, htr, rfl⟩
    have hf := List.mem_filter.mp htr
    exact ⟨tr, hf.1, hf.2, hck⟩

/-- The formatted timestamp string is never empty. -/
theorem fmtTimestamp_ne_empty (t : Int) : fmtTimestamp t ≠ "" := by
  intro h
  have hlen := congrArg String.length h
  have hd : ("-" : String).length = 1 := rfl
  have hsp : (" " : String).length = 1 := rfl
  have hcol : (":" : String).length = 1 := rfl
  have hemp : ("" : String).length = 0 := rfl
  simp only [fmtTimestamp, String.length_append, hd, hsp, hcol, hemp] at hlen
  omega

/-- C1: the claim demands that the aggregates be returned in first-insertion
order (normal, then internal, then token scan) and that repeated runs on the
same input produce identical output.  The code builds the output by ranging
over the Go map `beneficiaryMap` (beneficiary.go lines 151-155), whose
iteration order is unspecified and randomised per run, so the observable
relation admits outputs other than the first-insertion-order list: on two
successful normal transactions to the distinct counterparties `0xb` and
`0xc`, both `[0xb, 0xc]` (the first-insertion order) and `[0xc, 0xb]` are
admitted results, and they differ. -/
theorem claim_insertion_order_code_bug :
    AnalyzeBeneficiaryRel "0xa" (.ok c1NormalTxs) (.ok []) (.ok [])
      (.ok [c1AggB, c1AggC]) ∧
    AnalyzeBeneficiaryRel "0xa" (.ok c1NormalTxs) (.ok []) (.ok [])
      (.ok [c1AggC, c1AggB]) ∧
    [c1AggC, c1AggB] ≠ [c1AggB, c1AggC] ∧
    beneficiariesOf "0xa" c1NormalTxs [] [] = [c1AggB, c1AggC] := by
  have hcanon : beneficiariesOf "0xa" c1NormalTxs [] [] = [c1AggB, c1AggC] := rfl
  refine ⟨⟨[c1AggB, c1AggC], rfl, ?_⟩, ⟨[c1AggC, c1AggB], rfl, ?_⟩, ?_, hcanon⟩
  · rw [hcanon]
  · rw [hcanon]
    exact List.Perm.swap c1AggB c1AggC []
  · intro h
    injection h with h1 _
    exact absurd (congrArg Beneficiary.address h1) (by decide)

/-- C2 (counterexample): the claim states that a transport failure of every
one of the three fetch kinds is retried up to 3 attempts.  `GetTokenTransfers`
issues a single request with no retry loop (client.go lines 307-310): with a
transport oracle that fails on the first attempt and would succeed on the
second, the token-transfer fetch surfaces the failure, while the
normal/internal fetch path retries once (with a 1-second backoff) and
succeeds. -/
theorem claim_transport_retry_counterexample :
    getTokenTransfersTransport (fun n => if n = 0 then none else some 42) = (none, []) ∧
    fetchTransactionsTransport (fun n => if n = 0 then none else some 42) = (some 42, [1]) :=
  ⟨rfl, rfl⟩

/-- C2 (amended): for the normal and internal transaction fetches,
`fetchTransactions` retries a transport failure up to 3 attempts total,
sleeping `(attempt index)²` seconds before each retry beyond the first, and
surfaces the failure only after all attempts fail; the token-transfer fetch
performs a single attempt with no retry and no backoff. -/
theorem claim_transport_retry_amended :
    ∀ {α : Type} (get : Nat → Option α) (v : α),
    (get 0 = some v → fetchTransactionsTransport get = (some v, [])) ∧
    (get 0 = none → get 1 = some v → fetchTransactionsTransport get = (some v, [1])) ∧
    (get 0 = none → get 1 = none → get 2 = some v →
      fetchTransactionsTransport get = (some v, [1, 4])) ∧
    (get 0 = none → get 1 = none → get 2 = none →
      fetchTransactionsTransport get = (none, [1, 4])) ∧
    getTokenTransfersTransport get = (get 0, []) := by
  intro α get v
  have hr : fetchTransactionsTransport get = retrySteps get [0, 1, 2] := rfl
  refine ⟨?_, ?_, ?_, ?_, rfl⟩
  · intro h0
    rw [hr]
    simp [retrySteps, h0]
  · intro h0 h1
    rw [hr]
    simp [retrySteps, h0, h1]
  · intro h0 h1 h2
    rw [hr]
    simp [retrySteps, h0, h1, h2]
  · intro h0 h1 h2
    rw [hr]
    simp [retrySteps, h0, h1, h2]

/-- Witness for the amended C2 theorem: an always-failing transport makes the
normal/internal fetch path fail after 3 attempts with backoff waits of 1 and
4 seconds. -/
theorem claim_transport_retry_amended_witness :
    fetchTransactionsTransport (fun _ : Nat => (none : Option Nat)) = (none, [1, 4]) :=
  (claim_transport_retry_amended (fun _ : Nat => (none : Option Nat)) 0).2.2.2.1 rfl rfl rfl

/-- C3: a counterparty appears in the beneficiary analysis only if some
record sends from the queried address (case-insensitively) to it, and in the
payer analysis only if some record sends to the queried address from it;
moreover the whole analysis is invariant under changing the letter case of
the queried address, and an address differing only in case passes the
`equalFold` filter. -/
theorem claim_directionality_case_insensitivity :
    ∀ (address C : String) (n i : List Transaction) (t : List TokenTransfer)
      (outB : List Beneficiary) (outP : List Payer),
    outB.Perm (beneficiariesOf address n i t) →
    outP.Perm (payersOf address n i t) →
    ((C ∈ outB.map (fun b => b.address) →
        (∃ tx ∈ n ++ i, equalFold tx.«from» address = true ∧ tx.«to» = C) ∨
        (∃ tr ∈ t, equalFold tr.«from» address = true ∧ tr.«to» = C)) ∧
     (C ∈ outP.map (fun p => p.address) →
        (∃ tx ∈ n ++ i, equalFold tx.«to» address = true ∧ tx.«from» = C) ∨
        (∃ tr ∈ t, equalFold tr.«to» address = true ∧ tr.«from» = C)) ∧
     (∀ a₂, lowerString address = lowerString a₂ →
        equalFold a₂ address = true ∧
        beneficiariesOf a₂ n i t = beneficiariesOf address n i t ∧
        payersOf a₂ n i t = payersOf address n i t)) := by
  intro address C n i t outB outP hpB hpP
  refine ⟨?_, ?_, ?_⟩
  · intro hC
    have hC2 : C ∈ (beneficiariesOf address n i t).map (fun b => b.address) :=
      (hpB.map _).mem_iff.mp hC
    rw [beneficiariesOf_processList] at hC2
    rcases List.mem_map.mp hC2 with ⟨b, hb, rfl⟩
    rcases address_mem_processList _ _ _ hb with h | h
    · simp at h
    · exact outContribs_key_source address n i t _ h
  · intro hC
    have hC2 : C ∈ (payersOf address n i t).map (fun p => p.address) :=
      (hpP.map _).mem_iff.mp hC
    rw [payersOf_processList] at hC2
    rcases List.mem_map.mp hC2 with ⟨p, hp, rfl⟩
    rcases address_mem_processList _ _ _ hp with h | h
    · simp at h
    · exact inContribs_key_source address n i t _ h
  · intro a₂ h
    refine ⟨?_, beneficiariesOf_case_insensitive a₂ address h.symm n i t,
      payersOf_case_insensitive a₂ address h.symm n i t⟩
    simp [equalFold, h]

/-- Witness for the C3 theorem: on one outgoing normal transaction whose
`from` field `0xA` differs from the queried address `0xa` only in case, the
counterparty `0xb` reported by the analysis is justified by that record. -/
theorem claim_directionality_witness :
    (∃ tx ∈ ([mkTx "h1" "1690000000" "0xA" "0xb" "7" "0"] ++ ([] : List Transaction)),
        equalFold tx.«from» "0xa" = true ∧ tx.«to» = "0xb") ∨
    (∃ tr ∈ ([] : List TokenTransfer),
        equalFold tr.«from» "0xa" = true ∧ tr.«to» = "0xb") :=
  (claim_directionality_case_insensitivity "0xa" "0xb"
    [mkTx "h1" "1690000000" "0xA" "0xb" "7" "0"] [] []
    (beneficiariesOf "0xa" [mkTx "h1" "1690000000" "0xA" "0xb" "7" "0"] [] [])
    (payersOf "0xa" [mkTx "h1" "1690000000" "0xA" "0xb" "7" "0"] [] [])
    (List.Perm.refl _) (List.Perm.refl _)).1 (by decide)

/-- C4: a normal or internal transaction whose `isError` flag is not `"0"`
contributes to no aggregate — removing it from either scan position leaves
both analyses unchanged — while a token transfer matching the direction
filter always contributes a detail to the aggregate of its counterparty
(token transfers carry no error flag and are never excluded on that basis). -/
theorem claim_error_flag_exclusion :
    ∀ (address : String) (tx : Transaction) (n₁ n₂ i₁ i₂ n i : List Transaction)
      (t t₁ t₂ : List TokenTransfer) (tr : TokenTransfer),
    tx.isError ≠ "0" →
    (beneficiariesOf address (n₁ ++ tx :: n₂) i t = beneficiariesOf address (n₁ ++ n₂) i t ∧
     beneficiariesOf address n (i₁ ++ tx :: i₂) t = beneficiariesOf address n (i₁ ++ i₂) t ∧
     payersOf address (n₁ ++ tx :: n₂) i t = payersOf address (n₁ ++ n₂) i t ∧
     payersOf address n (i₁ ++ tx :: i₂) t = payersOf address n (i₁ ++ i₂) t) ∧
    ((equalFold tr.«from» address = true →
        ∃ b ∈ beneficiariesOf address n i (t₁ ++ tr :: t₂),
          b.address = tr.«to» ∧
          (⟨toDisplayAmount tr.value, displayTime tr.timeStamp, tr.hash⟩ :
            TransactionDetails) ∈ b.transactions) ∧
     (equalFold tr.«to» address = true →
        ∃ p ∈ payersOf address n i (t₁ ++ tr :: t₂),
          p.address = tr.«from» ∧
          (⟨toDisplayAmount tr.value, displayTime tr.timeStamp, tr.hash⟩ :
            TransactionDetails) ∈ p.transactions)) := by
  intro address tx n₁ n₂ i₁ i₂ n i t t₁ t₂ tr h
  have hie : (tx.isError == "0") = false := by
    rw [beq_eq_false_iff_ne]
    exact h
  constructor
  · refine ⟨?_, ?_, ?_, ?_⟩
    · simp [beneficiariesOf, List.foldl_append, hie, h]
    · simp [beneficiariesOf, List.foldl_append, hie, h]
    · simp [payersOf, List.foldl_append, hie, h]
    · simp [payersOf, List.foldl_append, hie, h]
  · constructor
    · intro htr
      rw [beneficiariesOf_processList]
      have h0 : tr ∈ (t₁ ++ tr :: t₂).filter (fun tr => equalFold tr.«from» address) := by
        simp [List.mem_filter, htr]
      have hmem : outTrContrib tr ∈ outContribs address n i (t₁ ++ tr :: t₂) := by
        simp only [outContribs, List.mem_append, or_assoc]
        right
        right
        exact List.mem_map.mpr ⟨tr, h0, rfl⟩
      exact contribution_detail_mem _ _ hmem
    · intro htr
      rw [payersOf_processList]
      have h0 : tr ∈ (t₁ ++ tr :: t₂).filter (fun tr => equalFold tr.«to» address) := by
        simp [List.mem_filter, htr]
      have hmem : inTrContrib tr ∈ inContribs address n i (t₁ ++ tr :: t₂) := by
        simp only [inContribs, List.mem_append, or_assoc]
        right
        right
        exact List.mem_map.mpr ⟨tr, h0, rfl⟩
      exact contribution_detail_mem _ _ hmem

/-- Witness for the C4 theorem: an erroneous transaction (flag `"1"`) and a
direction-matching token transfer; the transfer contributes its detail to the
aggregate for `0xd`. -/
theorem claim_error_flag_witness :
    ∃ b ∈ beneficiariesOf "0xa" [] []
        (([] : List TokenTransfer) ++ mkTransfer "h3" "1690000000" "0xa" "0xd" "5" :: []),
      b.address = (mkTransfer "h3" "1690000000" "0xa" "0xd" "5").«to» ∧
      (⟨toDisplayAmount (mkTransfer "h3" "1690000000" "0xa" "0xd" "5").value,
        displayTime (mkTransfer "h3" "1690000000" "0xa" "0xd" "5").timeStamp,
        (mkTransfer "h3" "1690000000" "0xa" "0xd" "5").hash⟩ : TransactionDetails)
        ∈ b.transactions :=
  (claim_error_flag_exclusion "0xa" (mkTx "h1" "1690000000" "0xa" "0xb" "7" "1")
    [] [] [] [] [] [] [] [] [] (mkTransfer "h3" "1690000000" "0xa" "0xd" "5")
    (by decide)).2.1 (by decide)

set_option maxRecDepth 16000 in
/-- C5 (counterexample): the claim asserts that the sum of `totalAmount` over
all returned aggregates equals the sum of `toDisplayAmount(r.value)` over the
filtered records.  The totals are accumulated with float64 additions grouped
by counterparty, and float64 addition does not regroup: on four outgoing
transactions of Ether amounts `2^53, 1, 1, 1` grouped `0xb, 0xb, 0xc, 0xc`,
the per-aggregate totals are `fl(2^53 + 1) = 2^53` (ties-to-even) and
`fl(1 + 1) = 2`, whose exact sum `2^53 + 2` differs from the exact record sum
`2^53 + 3`; the float64 readings differ as well (`2^53 + 2` against the
record-order accumulation `2^53`). -/
theorem claim_total_amounts_counterexample :
    ((beneficiariesOf "0xa" c5Txs [] []).map (fun b => b.amount)).sum
      ≠ ((outContribs "0xa" c5Txs [] []).map (fun c => toDisplayAmount c.value)).sum ∧
    accumulateFloats ((beneficiariesOf "0xa" c5Txs [] []).map (fun b => b.amount))
      ≠ accumulateFloats
          ((outContribs "0xa" c5Txs [] []).map (fun c => toDisplayAmount c.value)) := by
  constructor
  · decide
  · decide

/-- C5 (amended): every aggregate's `totalAmount` equals the float64
accumulation, in encounter order, of the amounts of its own
`TransactionDetails` entries, and conservation holds for the exact values:
the exact (rational) sum over all aggregates of their details' amounts equals
the exact sum of `toDisplayAmount(r.value)` over exactly the records passing
the direction and error filters.  The float64-accumulated totals themselves
can violate the regrouped equation (see the counterexample). -/
theorem claim_total_amounts :
    ∀ (address : String) (n i : List Transaction) (t : List TokenTransfer)
      (outB : List Beneficiary) (outP : List Payer),
    outB.Perm (beneficiariesOf address n i t) →
    outP.Perm (payersOf address n i t) →
    ((∀ b ∈ outB,
        b.amount = accumulateFloats (b.transactions.map (fun d => d.txAmount))) ∧
     (outB.map (fun b => (b.transactions.map (fun d => d.txAmount)).sum)).sum
       = ((outContribs address n i t).map (fun c => toDisplayAmount c.value)).sum ∧
     (∀ p ∈ outP,
        p.amount = accumulateFloats (p.transactions.map (fun d => d.txAmount))) ∧
     (outP.map (fun p => (p.transactions.map (fun d => d.txAmount)).sum)).sum
       = ((inContribs address n i t).map (fun c => toDisplayAmount c.value)).sum) := by
  intro address n i t outB outP hpB hpP
  have hca : (fun c : Contribution => toDisplayAmount c.value) = contribAmount := rfl
  refine ⟨?_, ?_, ?_, ?_⟩
  · intro b hb
    have hb2 : b ∈ beneficiariesOf address n i t := hpB.mem_iff.mp hb
    rw [beneficiariesOf_processList] at hb2
    exact (amountInv_processList _ [] (by simp) b hb2).2
  · have h1 := (hpB.map (fun b => (b.transactions.map (fun d => d.txAmount)).sum)).sum_eq
    rw [h1, beneficiariesOf_processList, hca]
    have h2 := sumDetails_processList (outContribs address n i t) []
    simp only [sumDetails] at h2
    rw [h2]
    simp
  · intro p hp
    have hp2 : p ∈ payersOf address n i t := hpP.mem_iff.mp hp
    rw [payersOf_processList] at hp2
    exact (amountInv_processList _ [] (by simp) p hp2).2
  · have h1 := (hpP.map (fun p => (p.transactions.map (fun d => d.txAmount)).sum)).sum_eq
    rw [h1, payersOf_processList, hca]
    have h2 := sumDetails_processList (inContribs address n i t) []
    simp only [sumDetails] at h2
    rw [h2]
    simp

/-- Witness for the amended C5 theorem: the exact-sum conservation evaluated
on one outgoing normal transaction. -/
theorem claim_total_amounts_witness :
    ((beneficiariesOf "0xa" [mkTx "h1" "1690000000" "0xa" "0xb" "7" "0"] [] []).map
      (fun b => (b.transactions.map (fun d => d.txAmount)).sum)).sum
      = ((outContribs "0xa" [mkTx "h1" "1690000000" "0xa" "0xb" "7" "0"] [] []).map
        (fun c => toDisplayAmount c.value)).sum :=
  (claim_total_amounts "0xa" [mkTx "h1" "1690000000" "0xa" "0xb" "7" "0"] [] []
    _ _ (List.Perm.refl _) (List.Perm.refl _)).2.1

/-- C6 (code_bug): the claim — any fetch error makes the whole analysis fail
with that error, a partial aggregate list never being returned — matches the
intended first-error-wins design (each goroutine even wraps and returns the
error it sees), but the three goroutines of each analyzer share one `err`
variable and check that shared variable (beneficiary.go lines 51-90, payer.go
lines 37-63).  Under the valid interleaving `c6RacySchedule`, in which the
token goroutine's nil write lands between the internal goroutine's error
write and its `if err != nil` check, the internal fetch's failure is
swallowed: both analyses are admitted to return a non-empty partial aggregate
list with nil error, built from the two successful fetches.  Under the
sequential (race-free) interleaving of the same six events the same inputs
produce exactly the claimed wrapped error. -/
theorem claim_fetch_error_swallowed_code_bug :
    validSchedule c6RacySchedule ∧ validSchedule allGoEvents ∧
    AnalyzeBeneficiaryRaceRel "0xa" (.ok [c6Tx]) (.error "boom") (.ok [])
      c6RacySchedule (.ok [c6AggB]) ∧
    AnalyzePayerRaceRel "0xb" (.ok [c6Tx]) (.error "boom") (.ok [])
      c6RacySchedule (.ok [c6AggP]) ∧
    AnalyzeBeneficiaryRaceRel "0xa" (.ok [c6Tx]) (.error "boom") (.ok [])
      allGoEvents (.error (wrapFetchErr "internal transactions" "boom")) ∧
    AnalyzePayerRaceRel "0xb" (.ok [c6Tx]) (.error "boom") (.ok [])
      allGoEvents (.error (wrapFetchErr "internal transactions" "boom")) ∧
    ([c6AggB] : List Beneficiary) ≠ [] := by
  refine ⟨⟨by decide, by decide⟩, ⟨by decide, by decide⟩, ?_, ?_, rfl, rfl, by simp⟩
  · exact ⟨[c6AggB], rfl, List.Perm.refl _⟩
  · exact ⟨[c6AggP], rfl, List.Perm.refl _⟩

/-- C7: a provider envelope with status `"0"` and message
`"No transactions found"` is decoded as an empty record list with no error by
both envelope handlers, and an analysis whose fetches all succeed (one of
them empty) completes successfully rather than failing. -/
theorem claim_no_records_empty_success :
    ∀ (r : TransactionResponse) (rt : TokenTransferResponse) (errResult : Option String),
    r.status = "0" → r.message = "No transactions found" →
    rt.status = "0" → rt.message = "No transactions found" →
    handleTransactionResponse r = .ok [] ∧
    handleTokenTransferResponse rt errResult = .ok [] ∧
    (∀ (address : String) (i : List Transaction) (t : List TokenTransfer)
        (res : Except String (List Beneficiary)),
      AnalyzeBeneficiaryRel address (.ok []) (.ok i) (.ok t) res → ∃ l, res = .ok l) ∧
    (∀ (address : String) (i : List Transaction) (t : List TokenTransfer)
        (resP : Except String (List Payer)),
      AnalyzePayerRel address (.ok []) (.ok i) (.ok t) resP → ∃ l, resP = .ok l) := by
  intro r rt errResult h1 h2 h3 h4
  refine ⟨?_, ?_, ?_, ?_⟩
  · simp [handleTransactionResponse, h1, h2]
  · simp [handleTokenTransferResponse, h3, h4]
  · intro address i t res hres
    have hres2 : ∃ l, res = .ok l ∧ l.Perm (beneficiariesOf address [] i t) := hres
    rcases hres2 with ⟨l, hl, _⟩
    exact ⟨l, hl⟩
  · intro address i t resP hres
    have hres2 : ∃ l, resP = .ok l ∧ l.Perm (payersOf address [] i t) := hres
    rcases hres2 with ⟨l, hl, _⟩
    exact ⟨l, hl⟩

/-- Witness for the C7 theorem: the literal no-records envelope decodes to an
empty list with no error for both fetch shapes. -/
theorem claim_no_records_witness :
    handleTransactionResponse ⟨"0", "No transactions found", []⟩ = .ok [] ∧
    handleTokenTransferResponse ⟨"0", "No transactions found", []⟩ none = .ok [] :=
  ⟨(claim_no_records_empty_success ⟨"0", "No transactions found", []⟩
      ⟨"0", "No transactions found", []⟩ none rfl rfl rfl rfl).1,
   (claim_no_records_empty_success ⟨"0", "No transactions found", []⟩
      ⟨"0", "No transactions found", []⟩ none rfl rfl rfl rfl).2.1⟩

/-- C9 (counterexample): the claim asserts that the parse-failure fallback
makes the resulting `TransactionDetails` always carry a non-empty display
string, but a record whose timestamp field is the empty string fails to parse
and the fallback returns the empty string itself as the display time. -/
theorem claim_display_time_empty_counterexample :
    displayTime "" = "" ∧
    processBeneficiary [] "0xb" "1000000000000000000" "h1" "" =
      [⟨"0xb", toDisplayAmount "1000000000000000000",
        [⟨toDisplayAmount "1000000000000000000", "", "h1"⟩]⟩] :=
  ⟨rfl, rfl⟩

/-- C9 (amended): for every timestamp string that parses as a signed 64-bit
integer, formatting yields the fixed deterministic `YYYY-MM-DD HH:MM:SS`
rendering for the fixed reference time zone (in particular
`"1690000000"` formats to `"2023-07-22 04:26:40"` in UTC); for every string
that fails to parse, the original raw string is returned unchanged as the
display time rather than an error, so the display string is non-empty
whenever the raw timestamp string is non-empty. -/
theorem claim_format_time :
    ∀ s : String,
    (∀ n : Int, parseInt64 s = some n →
        FormatTime s = some (fmtTimestamp n) ∧ displayTime s = fmtTimestamp n) ∧
    (parseInt64 s = none → FormatTime s = none ∧ displayTime s = s) ∧
    (s ≠ "" → displayTime s ≠ "") ∧
    displayTime "1690000000" = "2023-07-22 04:26:40" := by
  intro s
  refine ⟨?_, ?_, ?_, rfl⟩
  · intro n h
    constructor
    · simp [FormatTime, h]
    · simp [displayTime, FormatTime, h]
  · intro h
    constructor
    · simp [FormatTime, h]
    · simp [displayTime, FormatTime, h]
  · intro hs
    cases hp : parseInt64 s with
    | none =>
      have : displayTime s = s := by simp [displayTime, FormatTime, hp]
      rw [this]
      exact hs
    | some n =>
      have : displayTime s = fmtTimestamp n := by simp [displayTime, FormatTime, hp]
      rw [this]
      exact fmtTimestamp_ne_empty n

/-- Witness for the amended C9 theorem: a non-numeric timestamp string is
returned unchanged as the display time instead of an error. -/
theorem claim_format_time_witness :
    FormatTime "not-a-number" = none ∧ displayTime "not-a-number" = "not-a-number" :=
  (claim_format_time "not-a-number").2.1 rfl

/-- C10: when all three fetches succeed and no record passes the direction
and error filters, both analyses return the empty aggregate list together
with no error — an empty result is success, never an error. -/
theorem claim_empty_result_success :
    ∀ (address : String) (n i : List Transaction) (t : List TokenTransfer)
      (res : Except String (List Beneficiary)) (resP : Except String (List Payer)),
    outContribs address n i t = [] →
    inContribs address n i t = [] →
    AnalyzeBeneficiaryRel address (.ok n) (.ok i) (.ok t) res →
    AnalyzePayerRel address (.ok n) (.ok i) (.ok t) resP →
    res = .ok ([] : List Beneficiary) ∧ resP = .ok ([] : List Payer) := by
  intro address n i t res resP ho hi hB hP
  have hBc : beneficiariesOf address n i t = [] := by
    rw [beneficiariesOf_processList, ho]
    rfl
  have hPc : payersOf address n i t = [] := by
    rw [payersOf_processList, hi]
    rfl
  have hB2 : ∃ l, res = .ok l ∧ l.Perm (beneficiariesOf address n i t) := hB
  have hP2 : ∃ l, resP = .ok l ∧ l.Perm (payersOf address n i t) := hP
  rcases hB2 with ⟨l, hl, hperm⟩
  rcases hP2 with ⟨l2, hl2, hperm2⟩
  rw [hBc] at hperm
  rw [hPc] at hperm2
  rw [hl, hl2, List.Perm.eq_nil hperm, List.Perm.eq_nil hperm2]
  exact ⟨rfl, rfl⟩

/-- Witness for the C10 theorem: a normal transaction touching neither
direction of the queried address yields the empty successful result for both
analyses. -/
theorem claim_empty_result_witness :
    (Except.ok ([] : List Beneficiary) : Except String (List Beneficiary)) = .ok [] ∧
    (Except.ok ([] : List Payer) : Except String (List Payer)) = .ok [] :=
  claim_empty_result_success "0xa" [mkTx "h1" "1690000000" "0xz" "0xq" "7" "0"] [] []
    (.ok []) (.ok []) rfl rfl
    ⟨[], rfl, List.Perm.refl _⟩ ⟨[], rfl, List.Perm.refl _⟩

end EthFundFlow
